import Mathlib

/-!
# Verification of the HDFS block write stream (rpc/block_write_stream.go)

A shallow embedding of the client-side block write stream: packetisation of
buffered bytes into checksummed packets, CRC32 (IEEE) chunk checksums, wire
framing, the ack-reading loop, and the finish/terminal-packet handshake.

Bytes are modelled as natural numbers, buffers as lists, the socket write
side as an oracle `Nat → Option WErr` giving the outcome of the n-th frame
write, and the ack read side as a list of read results.  The concurrent
acker is modelled as a pure function over the in-flight packet FIFO
(a list, since the channel is closed at the end of a run) and the stream of
ack-read results.  The drain loop of `flush` is embedded with explicit fuel
(one unit per loop iteration; each iteration consumes at least one buffered
byte, so `buf.length` units always suffice and `flush` supplies exactly
that), keeping every definition kernel-computable.
-/

namespace BlockWrite

/-- Errors surfaced by the stream.  `closedPipe` is io.ErrClosedPipe,
`invalidSeqno` is ErrInvalidSeqno, `ack` is the ackError struct
(pipelineIndex, seqno, status), `read`/`write` are opaque socket errors and
`eof` is the read error obtained when the ack stream is exhausted. -/
inductive WErr where
  | closedPipe
  | invalidSeqno
  | ack (pipelineIndex : Nat) (seqno : Int) (status : Nat)
  | read (code : Nat)
  | write (code : Nat)
  | eof
deriving DecidableEq, Repr

/-- const outboundPacketSize = 65536 -/
def outboundPacketSize : Nat := 65536

/-- const outboundChunkSize = 512 -/
def outboundChunkSize : Nat := 512

/-- const heartBeatSeqno = -1 -/
def heartBeatSeqno : Int := -1

/-- type outboundPacket struct -/
structure outboundPacket where
  seqno : Int
  offset : Int
  last : Bool
  checksums : List Nat
  data : List Nat
deriving DecidableEq, Repr

/-- type blockWriteStream struct.  `sent` records the packets handed to the
`packets` channel, in order; `nwrites` counts the frames handed to
`conn.Write` so the socket oracle can be consulted. -/
structure blockWriteStream where
  buf : List Nat
  offset : Int
  closed : Bool
  seqno : Int
  ackError : Option WErr
  sent : List outboundPacket
  nwrites : Nat
deriving DecidableEq, Repr

/-! ## CRC32 (IEEE), hash/crc32 with crc32.IEEETable -/

/-- The bit-reversed IEEE polynomial used by hash/crc32's IEEETable. -/
def crc32Poly : Nat := 0xEDB88320

/-- One bit step of the CRC32 computation: shift right, conditionally
xoring in the polynomial. -/
def crc32StepBit (c : Nat) : Nat :=
  if c % 2 = 1 then (c >>> 1) ^^^ crc32Poly else c >>> 1

/-- Iterate the bit step. -/
def crc32Bits : Nat → Nat → Nat
  | 0, c => c
  | k + 1, c => crc32Bits k (crc32StepBit c)

/-- One byte step: xor the byte into the low bits, then 8 bit steps. -/
def crc32Update (c b : Nat) : Nat := crc32Bits 8 (c ^^^ b)

/-- crc32.Checksum(data, crc32.IEEETable): init 0xFFFFFFFF, byte steps,
final complement. -/
def crc32 (data : List Nat) : Nat :=
  (data.foldl crc32Update 0xFFFFFFFF) ^^^ 0xFFFFFFFF

/-! ## Byte encodings, encoding/binary big-endian -/

/-- binary.BigEndian.PutUint32: the four big-endian bytes of the low 32 bits. -/
def u32be (n : Nat) : List Nat :=
  [n >>> 24 % 256, n >>> 16 % 256, n >>> 8 % 256, n % 256]

/-- binary.BigEndian.PutUint16: the two big-endian bytes of the low 16 bits. -/
def u16be (n : Nat) : List Nat :=
  [n >>> 8 % 256, n % 256]

/-! ## makePacket -/

/-- The packet length computed at the top of makePacket: capped at
outboundPacketSize, then capped to the distance to the next chunk boundary
when the current offset is misaligned.  Go's `int(s.offset) % outboundChunkSize`
is truncated division remainder, i.e. `Int.tmod`. -/
def makePacketLength (bufLen : Nat) (offset : Int) : Nat :=
  let packetLength := if bufLen < outboundPacketSize then bufLen else outboundPacketSize
  let alignment := Int.tmod offset (outboundChunkSize : Int)
  if 0 < alignment ∧ ((outboundChunkSize : Int) - alignment) < (packetLength : Int) then
    ((outboundChunkSize : Int) - alignment).toNat
  else
    packetLength

/-- int(math.Ceil(float64(packetLength) / float64(outboundChunkSize))):
exact for the magnitudes involved (≤ 65536), so embedded as the Nat
ceiling division. -/
def numChunks (packetLength : Nat) : Nat :=
  (packetLength + outboundChunkSize - 1) / outboundChunkSize

/-- The chunk of data covered by the i-th checksum:
packet.data[i*outboundChunkSize : min((i+1)*outboundChunkSize, len)]. -/
def chunkAt (data : List Nat) (i : Nat) : List Nat :=
  (data.drop (i * outboundChunkSize)).take outboundChunkSize

/-- The checksum array filled by makePacket's chunk loop: for each chunk
index, the 4 big-endian bytes of the chunk's CRC32 written at offset 4*i. -/
def makeChecksums (data : List Nat) : List Nat :=
  (((List.range (numChunks data.length)).map fun i => u32be (crc32 (chunkAt data i)))).flatten

/-- makePacket: build the packet (seqno, offset, last=false, checksums, data
drawn from the front of the buffer) and consume the read bytes from the
buffer (the io.ReadFull). -/
def makePacket (st : blockWriteStream) : outboundPacket × blockWriteStream :=
  let packetLength := makePacketLength st.buf.length st.offset
  ({ seqno := st.seqno
   , offset := st.offset
   , last := false
   , checksums := makeChecksums (st.buf.take packetLength)
   , data := st.buf.take packetLength },
   { st with buf := st.buf.drop packetLength })

/-! ## flush / Write / finish -/

/-- One iteration of the flush loop: makePacket (consuming the packet's
bytes from the buffer), enqueue the packet on `packets` (recorded in
`sent`), advance `offset` by the packet's data length and `seqno` by one;
the subsequent writePacket is the next frame write (`nwrites`). -/
def flushStep (st : blockWriteStream) : blockWriteStream :=
  { (makePacket st).2 with
    sent := st.sent ++ [(makePacket st).1]
    offset := st.offset + ((makePacket st).1.data.length : Int)
    seqno := st.seqno + 1
    nwrites := st.nwrites + 1 }

/-- The loop of flush, with explicit fuel (one unit per iteration).  Each
iteration performs `flushStep` and then consults the socket oracle for the
outcome of the writePacket; a write error aborts the loop. -/
def flushLoop (sock : Nat → Option WErr) (force : Bool) :
    Nat → blockWriteStream → blockWriteStream × Option WErr
  | 0, st => (st, none)
  | fuel + 1, st =>
    if 0 < st.buf.length ∧ (force ∨ outboundPacketSize ≤ st.buf.length) then
      match sock st.nwrites with
      | some e => (flushStep st, some e)
      | none => flushLoop sock force fuel (flushStep st)
    else
      (st, none)

/-- flush: run the drain loop.  `buf.length` fuel always suffices because
every iteration removes at least one byte from the buffer. -/
def flush (sock : Nat → Option WErr) (force : Bool) (st : blockWriteStream) :
    blockWriteStream × Option WErr :=
  flushLoop sock force st.buf.length st

/-- Write: reject when closed or an ack error is latched; otherwise append
the input to the buffer (bytes.Buffer.Write accepts everything), drain, and
return the accepted count together with any flush error. -/
def write (sock : Nat → Option WErr) (st : blockWriteStream) (b : List Nat) :
    Nat × Option WErr × blockWriteStream :=
  if st.closed then (0, some WErr.closedPipe, st)
  else
    match st.ackError with
    | some e => (0, some e, st)
    | none =>
      let fr := flush sock false { st with buf := st.buf ++ b }
      (b.length, fr.2, fr.1)

/-- The deferred error override at the end of finish: after the acker is
joined, a latched ack error replaces the returned error.  In this
single-threaded model ackError is whatever is in the state. -/
def finishDefer (st : blockWriteStream) (e : Option WErr) : Option WErr :=
  match st.ackError with
  | some a => some a
  | none => e

/-- finish: return nil immediately when already closed; otherwise set
closed, surface a latched ack error, force-drain the buffer, then emit the
terminal packet (seqno, offset, last=true, empty checksums and data) and
write it. -/
def finish (sock : Nat → Option WErr) (st : blockWriteStream) :
    blockWriteStream × Option WErr :=
  if st.closed then (st, none)
  else
    let st0 := { st with closed := true }
    match st0.ackError with
    | some e => (st0, finishDefer st0 (some e))
    | none =>
      let fr := flush sock true st0
      match fr.2 with
      | some e => (fr.1, finishDefer fr.1 (some e))
      | none =>
        let st1 := fr.1
        let lastPacket : outboundPacket :=
          { seqno := st1.seqno, offset := st1.offset, last := true
          , checksums := [], data := [] }
        let st2 := { st1 with sent := st1.sent ++ [lastPacket], nwrites := st1.nwrites + 1 }
        (st2, finishDefer st2 (sock st1.nwrites))

/-- newBlockWriteStream: fresh stream at the given starting offset. -/
def newBlockWriteStream (offset : Int) : blockWriteStream :=
  { buf := [], offset := offset, closed := false, seqno := 1
  , ackError := none, sent := [], nwrites := 0 }

/-- A sequence of Write calls. -/
def runWrites (sock : Nat → Option WErr) (ws : List (List Nat))
    (st : blockWriteStream) : blockWriteStream :=
  ws.foldl (fun s b => (write sock s b).2.2) st

/-- A full run: Write each element of ws in order, then finish. -/
def run (sock : Nat → Option WErr) (offset : Int) (ws : List (List Nat)) :
    blockWriteStream × Option WErr :=
  finish sock (runWrites sock ws (newBlockWriteStream offset))

/-! ## ackPackets -/

/-- hdfs.PipelineAckProto: a seqno and one status per pipeline replica.
Status codes are the hadoop proto enum values; SUCCESS = 0. -/
structure PipelineAck where
  seqno : Int
  reply : List Nat
deriving DecidableEq, Repr

/-- hdfs.Status_SUCCESS -/
def statusSuccess : Nat := 0

/-- The reply scan in ackPackets: the first (index, status) pair whose
status is not SUCCESS. -/
def firstFailure : List Nat → Option (Nat × Nat)
  | [] => none
  | st :: rest =>
    if st ≠ statusSuccess then some (0, st)
    else (firstFailure rest).map fun q => (q.1 + 1, q.2)

/-- The inner read loop of ackPackets for one dequeued packet `p`: read an
ack (a read failure, including exhaustion of the stream, latches the error),
latch an ackError on the first non-SUCCESS status, skip heartbeat acks
(seqno -1) by reading again, latch ErrInvalidSeqno on a seqno mismatch.
Returns the latched error (none when `p` was acknowledged) and the
unconsumed rest of the ack stream. -/
def readOneAck (p : outboundPacket) :
    List (Except WErr PipelineAck) → Option WErr × List (Except WErr PipelineAck)
  | [] => (some WErr.eof, [])
  | Except.error e :: rest => (some e, rest)
  | Except.ok a :: rest =>
    match firstFailure a.reply with
    | some q => (some (WErr.ack q.1 a.seqno q.2), rest)
    | none =>
      if a.seqno = heartBeatSeqno then readOneAck p rest
      else if a.seqno ≠ p.seqno then (some WErr.invalidSeqno, rest)
      else (none, rest)

/-- ackPackets over the whole FIFO (the list of packets sent before the
channel was closed): process packets in order until an error is latched;
after latching, the remaining packets are only dequeued and the socket is
not read again, so the unread ack stream is returned unchanged. -/
def ackPackets :
    List outboundPacket → List (Except WErr PipelineAck) →
    Option WErr × List (Except WErr PipelineAck)
  | [], acks => (none, acks)
  | p :: ps, acks =>
    match readOneAck p acks with
    | (none, rest) => ackPackets ps rest
    | (some e, rest) => (some e, rest)

/-! ## writePacket / writeHeartBeatPacket framing -/

/-- hdfs.PacketHeaderProto fields. -/
structure PacketHeaderProto where
  offsetInBlock : Int
  seqno : Int
  lastPacketInBlock : Bool
  dataLen : Int
deriving DecidableEq, Repr

/-- The header proto built by writePacket from a packet. -/
def headerOf (p : outboundPacket) : PacketHeaderProto :=
  { offsetInBlock := p.offset, seqno := p.seqno
  , lastPacketInBlock := p.last, dataLen := (p.data.length : Int) }

/-- The bytes writePacket puts on the wire, parameterised by the protobuf
encoding `enc` of the header (proto.Marshal, an external library):
u32 big-endian totalLength (= data + checksums + 4, excluding the header
proto), u16 big-endian header proto length, the header proto bytes, the
checksums, the data. -/
def writePacketBytes (enc : PacketHeaderProto → List Nat) (p : outboundPacket) :
    List Nat :=
  let infoBytes := enc (headerOf p)
  let totalLength := p.data.length + p.checksums.length + 4
  (u32be totalLength ++ u16be infoBytes.length ++ infoBytes) ++ p.checksums ++ p.data

/-- The header proto of a heartbeat packet: offset 0, seqno -1 (the
heartbeat sentinel), last false, dataLen 0. -/
def heartBeatHeader : PacketHeaderProto :=
  { offsetInBlock := 0, seqno := heartBeatSeqno
  , lastPacketInBlock := false, dataLen := 0 }

/-- The bytes writeHeartBeatPacket puts on the wire: u32 big-endian 4,
u16 big-endian header proto length, the header proto bytes, and nothing
else. -/
def writeHeartBeatPacketBytes (enc : PacketHeaderProto → List Nat) : List Nat :=
  u32be 4 ++ u16be (enc heartBeatHeader).length ++ enc heartBeatHeader

/-! ## Spec-side definitions (for the refinement claim about the drain loop) -/

/-- Modelled from the spec's packetisation step: tentative length
min(buffered, 65536), capped to 512 - (offset mod 512) when the offset is
misaligned and the tentative length crosses the chunk boundary. -/
def packetLenSpec (bufLen : Nat) (offset : Int) : Nat :=
  let tentative := min bufLen 65536
  let alignment := Int.tmod offset 512
  if 0 < alignment ∧ (512 - alignment) < (tentative : Int) then
    (512 - alignment).toNat
  else
    tentative

/-- Modelled from the spec's drain loop: while buffered bytes remain and
either a full-size packet can be formed or the flush is forced, emit a
packet of length packetLenSpec and advance.  Fuel-indexed exactly like the
implementation loop. -/
def drainLens (force : Bool) : Nat → Nat → Int → List Nat
  | 0, _, _ => []
  | fuel + 1, bufLen, offset =>
    if 0 < bufLen ∧ (force ∨ 65536 ≤ bufLen) then
      let L := packetLenSpec bufLen offset
      L :: drainLens force fuel (bufLen - L) (offset + (L : Int))
    else
      []

/-- The relation between a stream state `st` entering the flush loop, the
state `st'` and error it leaves with, and the list `new` of packets the
loop emitted: the packets are appended to `sent` in order, their data is
exactly the consumed front of the buffer, offset/seqno advance accordingly,
every emitted packet is a non-terminal packet with non-empty data carrying
the seqno/offset of its creation point, an error-free exit means the loop
guard failed, and every emitted packet after the first (as well as the
final offset of a non-forced drain) sits on a chunk boundary. -/
structure FlushSpec (force : Bool) (st st' : blockWriteStream) (err : Option WErr)
    (new : List outboundPacket) : Prop where
  sent_eq : st'.sent = st.sent ++ new
  closed_eq : st'.closed = st.closed
  ackError_eq : st'.ackError = st.ackError
  bytes : (new.map outboundPacket.data).flatten ++ st'.buf = st.buf
  offset_eq : st'.offset = st.offset + (((new.map fun p => p.data.length).sum : Nat) : Int)
  seqno_eq : st'.seqno = st.seqno + new.length
  seqnos : ∀ (i : Nat) (p : outboundPacket), new[i]? = some p →
    p.seqno = st.seqno + (i : Int)
  offsets : ∀ (i : Nat) (p : outboundPacket), new[i]? = some p →
    p.offset = st.offset + ((((new.take i).map fun q => q.data.length).sum : Nat) : Int)
  lasts : ∀ p ∈ new, p.last = false
  nonempty_data : ∀ p ∈ new, p.data ≠ []
  loop_exit : err = none →
    st'.buf = [] ∨ (force = false ∧ st'.buf.length < outboundPacketSize)
  aligned_tail : ∀ (i : Nat) (p : outboundPacket), new[i]? = some p → 0 < i →
    0 ≤ st.offset → Int.tmod p.offset 512 = 0
  aligned_end : force = false → 0 ≤ st.offset → new ≠ [] → Int.tmod st'.offset 512 = 0

/-- The packet-accounting part of the invariant maintained by a stream
state during a run, relative to the starting offset `off0` and the bytes
`written` accepted so far: the emitted packets and the buffer partition the
accepted bytes, offset and seqno track the emitted packets, packet i
carries seqno 1+i and the offset off0 plus the sizes of its predecessors,
all emitted packets are non-terminal, and (for a block offset, i.e. a
nonnegative starting offset) every emitted packet after the first sits on
a chunk boundary. -/
structure MidInv (off0 : Int) (written : List Nat) (st : blockWriteStream) : Prop where
  bytes : (st.sent.map outboundPacket.data).flatten ++ st.buf = written
  offset_eq : st.offset = off0 + (((st.sent.map fun p => p.data.length).sum : Nat) : Int)
  seqno_eq : st.seqno = 1 + st.sent.length
  seqnos : ∀ (i : Nat) (p : outboundPacket), st.sent[i]? = some p →
    p.seqno = 1 + (i : Int)
  offsets : ∀ (i : Nat) (p : outboundPacket), st.sent[i]? = some p →
    p.offset = off0 + ((((st.sent.take i).map fun q => q.data.length).sum : Nat) : Int)
  lasts : ∀ p ∈ st.sent, p.last = false
  tail_aligned : ∀ (i : Nat) (p : outboundPacket), st.sent[i]? = some p → 0 < i →
    0 ≤ off0 → Int.tmod p.offset 512 = 0

/-- The full invariant of the write phase (before finish): additionally the
stream is open with no latched error and the current offset is
chunk-aligned once a packet has been emitted. -/
structure RunInv (off0 : Int) (written : List Nat) (st : blockWriteStream)
    extends MidInv off0 written st : Prop where
  closed_eq : st.closed = false
  ackError_eq : st.ackError = none
  head_aligned : 0 ≤ off0 → st.sent ≠ [] → Int.tmod st.offset 512 = 0

/-- The terminal packet emitted by finish after K data packets moving
`total` data bytes from a stream starting at `off0`. -/
def terminalPacket (off0 : Int) (k total : Nat) : outboundPacket :=
  { seqno := 1 + (k : Int), offset := off0 + (total : Int)
  , last := true, checksums := [], data := [] }

/-- What a full run guarantees, relative to the list `dps` of its data
packets: the final `sent` list is `dps`, or `dps` followed by the terminal
packet (and always the latter with an empty leftover buffer when the run
reports no error); the data packets and the leftover buffer partition the
written bytes; every sent packet (terminal included) carries seqno 1+i and
offset off0 plus its predecessors' sizes; data packets are non-terminal;
and every sent data packet beyond the first is chunk-aligned for
nonnegative starting offsets. -/
structure RunSpec (off0 : Int) (ws : List (List Nat))
    (res : blockWriteStream × Option WErr) (dps : List outboundPacket) : Prop where
  shape : res.1.sent = dps ∨
    res.1.sent = dps ++ [terminalPacket off0 dps.length ((dps.map fun p => p.data.length).sum)]
  bytes : (dps.map outboundPacket.data).flatten ++ res.1.buf = ws.flatten
  seqnos : ∀ (i : Nat) (p : outboundPacket), res.1.sent[i]? = some p →
    p.seqno = 1 + (i : Int)
  offsets : ∀ (i : Nat) (p : outboundPacket), res.1.sent[i]? = some p →
    p.offset = off0 + ((((res.1.sent.take i).map fun q => q.data.length).sum : Nat) : Int)
  dps_lasts : ∀ p ∈ dps, p.last = false
  aligned : ∀ (i : Nat) (p : outboundPacket), res.1.sent[i]? = some p → p.last = false →
    0 < i → 0 ≤ off0 → Int.tmod p.offset 512 = 0
  success : res.2 = none →
    res.1.sent = dps ++ [terminalPacket off0 dps.length ((dps.map fun p => p.data.length).sum)] ∧
    res.1.buf = []

/-! ## Arithmetic helpers about the chunk alignment -/

lemma tmod512_lt (o : Int) : Int.tmod o 512 < 512 :=
  Int.tmod_lt_of_pos o (by norm_num)

lemma nonneg_of_tmod512_pos {o : Int} (h : 0 < Int.tmod o 512) : 0 ≤ o := by
  cases o with
  | ofNat n => exact Int.ofNat_nonneg n
  | negSucc n =>
    exfalso
    have hx : Int.tmod (Int.negSucc n) 512 = -(((n + 1) % 512 : Nat) : Int) := by
      simp [Int.tmod]
    rw [hx] at h
    omega

/-- makePacketLength, with the constants inlined and the first cap written
as a min. -/
lemma makePacketLength_eq (B : Nat) (o : Int) :
    makePacketLength B o =
      if 0 < Int.tmod o 512 ∧ 512 - Int.tmod o 512 < ((min B 65536 : Nat) : Int)
      then (512 - Int.tmod o 512).toNat else min B 65536 := by
  have h1 := tmod512_lt o
  simp only [makePacketLength, outboundPacketSize, outboundChunkSize, Nat.cast_ofNat,
    Nat.min_def]
  split_ifs <;> omega

lemma makePacketLength_le (B : Nat) (o : Int) : makePacketLength B o ≤ B := by
  have h1 := tmod512_lt o
  rw [makePacketLength_eq]
  split <;> omega

lemma makePacketLength_pos {B : Nat} (o : Int) (h : 0 < B) :
    0 < makePacketLength B o := by
  have h1 := tmod512_lt o
  rw [makePacketLength_eq]
  split <;> omega

lemma makePacketLength_eq_packetLenSpec (B : Nat) (o : Int) :
    makePacketLength B o = packetLenSpec B o := by
  rw [makePacketLength_eq]
  simp only [packetLenSpec]

/-- A full-size drain step (the buffer holds at least a whole packet) always
lands the offset on a chunk boundary. -/
lemma stepAlign_full {B : Nat} {o : Int} (ho : 0 ≤ o) (hB : 65536 ≤ B) :
    Int.tmod (o + (makePacketLength B o : Int)) 512 = 0 := by
  have h1 : Int.tmod o 512 = o % 512 := Int.tmod_eq_emod ho (by norm_num)
  have hlt := tmod512_lt o
  have ht := Int.tmod_nonneg 512 ho
  have h2 : Int.tmod (o + (makePacketLength B o : Int)) 512
      = (o + (makePacketLength B o : Int)) % 512 :=
    Int.tmod_eq_emod (by positivity) (by norm_num)
  rw [h2, makePacketLength_eq]
  have hmin : min B 65536 = 65536 := by omega
  rw [hmin]
  split
  · rename_i hc; omega
  · rename_i hc
    rw [not_and_or] at hc
    rcases hc with hc | hc
    · push_neg at hc
      have : Int.tmod o 512 = 0 := by omega
      push_cast
      omega
    · push_neg at hc
      omega

/-- A drain step that leaves the buffer non-empty always lands the offset on
a chunk boundary. -/
lemma stepAlign_partial {B : Nat} {o : Int} (ho : 0 ≤ o) (hB : 0 < B)
    (hlt : makePacketLength B o < B) :
    Int.tmod (o + (makePacketLength B o : Int)) 512 = 0 := by
  have h1 : Int.tmod o 512 = o % 512 := Int.tmod_eq_emod ho (by norm_num)
  have hlt2 := tmod512_lt o
  have ht := Int.tmod_nonneg 512 ho
  have h2 : Int.tmod (o + (makePacketLength B o : Int)) 512
      = (o + (makePacketLength B o : Int)) % 512 :=
    Int.tmod_eq_emod (by positivity) (by norm_num)
  rw [h2]
  rw [makePacketLength_eq] at hlt ⊢
  revert hlt
  split
  · intro _; omega
  · rename_i hc
    intro hlt
    have hB2 : 65536 ≤ B := by omega
    rw [not_and_or] at hc
    rcases hc with hc | hc
    · push_neg at hc
      have : Int.tmod o 512 = 0 := by omega
      omega
    · push_neg at hc
      omega

/-! ## Projection lemmas for makePacket and flushStep -/

lemma makePacket_data (st : blockWriteStream) :
    (makePacket st).1.data = st.buf.take (makePacketLength st.buf.length st.offset) := rfl

lemma makePacket_seqno (st : blockWriteStream) : (makePacket st).1.seqno = st.seqno := rfl

lemma makePacket_offset (st : blockWriteStream) : (makePacket st).1.offset = st.offset := rfl

lemma makePacket_last (st : blockWriteStream) : (makePacket st).1.last = false := rfl

lemma makePacket_data_length (st : blockWriteStream) :
    (makePacket st).1.data.length = makePacketLength st.buf.length st.offset := by
  rw [makePacket_data, List.length_take]
  exact min_eq_left (makePacketLength_le _ _)

lemma flushStep_buf (st : blockWriteStream) :
    (flushStep st).buf = st.buf.drop (makePacketLength st.buf.length st.offset) := rfl

lemma flushStep_sent (st : blockWriteStream) :
    (flushStep st).sent = st.sent ++ [(makePacket st).1] := rfl

lemma flushStep_offset (st : blockWriteStream) :
    (flushStep st).offset = st.offset + ((makePacket st).1.data.length : Int) := rfl

lemma flushStep_seqno (st : blockWriteStream) : (flushStep st).seqno = st.seqno + 1 := rfl

lemma flushStep_closed (st : blockWriteStream) : (flushStep st).closed = st.closed := rfl

lemma flushStep_ackError (st : blockWriteStream) :
    (flushStep st).ackError = st.ackError := rfl

lemma flushStep_nwrites (st : blockWriteStream) :
    (flushStep st).nwrites = st.nwrites + 1 := rfl

lemma flushStep_buf_length (st : blockWriteStream) :
    (flushStep st).buf.length = st.buf.length - makePacketLength st.buf.length st.offset := by
  rw [flushStep_buf, List.length_drop]

/-! ## The flush loop invariant -/

lemma flushSpec_nil (force : Bool) (s : blockWriteStream) (err : Option WErr)
    (hexit : err = none → s.buf = [] ∨ (force = false ∧ s.buf.length < outboundPacketSize)) :
    FlushSpec force s s err [] := by
  refine ⟨(List.append_nil _).symm, rfl, rfl, by simp, by simp, by simp,
    ?_, ?_, ?_, ?_, hexit, ?_, ?_⟩
  · intro i p hp; exact absurd hp (by simp)
  · intro i p hp; exact absurd hp (by simp)
  · intro p hp; exact absurd hp (by simp)
  · intro p hp; exact absurd hp (by simp)
  · intro i p hp; exact absurd hp (by simp)
  · intro _ _ hne; exact absurd rfl hne

lemma FlushSpec.cons {force : Bool} {st st' : blockWriteStream} {err : Option WErr}
    {new : List outboundPacket}
    (hg : 0 < st.buf.length ∧ (force ∨ outboundPacketSize ≤ st.buf.length))
    (h : FlushSpec force (flushStep st) st' err new) :
    FlushSpec force st st' err ((makePacket st).1 :: new) := by
  have hple := makePacketLength_le st.buf.length st.offset
  have hppos := makePacketLength_pos st.offset hg.1
  have hdlen := makePacket_data_length st
  have hstep_off : (flushStep st).offset
      = st.offset + (makePacketLength st.buf.length st.offset : Int) := by
    rw [flushStep_offset, hdlen]
  refine ⟨?_, ?_, ?_, ?_, ?_, ?_, ?_, ?_, ?_, ?_, ?_, ?_, ?_⟩
  · rw [h.sent_eq, flushStep_sent, List.append_assoc, List.singleton_append]
  · rw [h.closed_eq, flushStep_closed]
  · rw [h.ackError_eq, flushStep_ackError]
  · rw [List.map_cons, List.flatten_cons, List.append_assoc, h.bytes, flushStep_buf,
      makePacket_data, List.take_append_drop]
  · rw [h.offset_eq, flushStep_offset, List.map_cons, List.sum_cons]
    push_cast
    ring
  · rw [h.seqno_eq, flushStep_seqno, List.length_cons]
    push_cast
    ring
  · intro i p hp
    match i, hp with
    | 0, hp =>
      rw [List.getElem?_cons_zero] at hp
      obtain rfl : (makePacket st).1 = p := by injection hp
      rw [makePacket_seqno]
      simp
    | (i + 1), hp =>
      rw [List.getElem?_cons_succ] at hp
      rw [h.seqnos i p hp, flushStep_seqno]
      push_cast
      ring
  · intro i p hp
    match i, hp with
    | 0, hp =>
      rw [List.getElem?_cons_zero] at hp
      obtain rfl : (makePacket st).1 = p := by injection hp
      rw [makePacket_offset]
      simp
    | (i + 1), hp =>
      rw [List.getElem?_cons_succ] at hp
      rw [h.offsets i p hp, flushStep_offset, List.take_succ_cons, List.map_cons,
        List.sum_cons, hdlen]
      push_cast
      ring
  · intro p hp
    rcases List.mem_cons.mp hp with rfl | hp
    · exact makePacket_last st
    · exact h.lasts p hp
  · intro p hp
    rcases List.mem_cons.mp hp with rfl | hp
    · refine List.length_pos.mp ?_
      rw [hdlen]
      exact hppos
    · exact h.nonempty_data p hp
  · exact h.loop_exit
  · intro i p hp hipos hoff
    obtain ⟨j, rfl⟩ : ∃ j, i = j + 1 := ⟨i - 1, by omega⟩
    rw [List.getElem?_cons_succ] at hp
    rcases Nat.eq_zero_or_pos j with hj0 | hjpos
    · subst hj0
      have hoff0 := h.offsets 0 p hp
      rw [hstep_off] at hoff0
      simp only [List.take_zero, List.map_nil, List.sum_nil, Nat.cast_zero, add_zero]
        at hoff0
      rw [hoff0]
      have hne : (flushStep st).buf ≠ [] := by
        intro hcontra
        cases hnew : new with
        | nil => rw [hnew] at hp; exact absurd hp (by simp)
        | cons p0 rest =>
          have hp0 : p0.data ≠ [] := h.nonempty_data p0 (by rw [hnew]; exact List.mem_cons_self _ _)
          have hb := h.bytes
          rw [hnew, hcontra, List.map_cons, List.flatten_cons, List.append_assoc] at hb
          exact hp0 (List.append_eq_nil.mp hb).1
      have hlt : makePacketLength st.buf.length st.offset < st.buf.length := by
        have h1 := flushStep_buf_length st
        have h2 : (flushStep st).buf.length ≠ 0 := by
          intro hc; exact hne (List.eq_nil_of_length_eq_zero hc)
        omega
      exact stepAlign_partial hoff hg.1 hlt
    · apply h.aligned_tail j p hp hjpos
      rw [hstep_off]
      omega
  · intro hforce hoff _
    cases hnew : new with
    | nil =>
      have hofeq := h.offset_eq
      rw [hnew] at hofeq
      simp only [List.map_nil, List.sum_nil, Nat.cast_zero, add_zero] at hofeq
      rw [hofeq, hstep_off]
      refine stepAlign_full hoff ?_
      rcases hg.2 with hf | hB
      · rw [hforce] at hf; exact absurd hf (by simp)
      · exact hB
    | cons p0 rest =>
      refine h.aligned_end hforce ?_ (by rw [hnew]; simp)
      rw [hstep_off]
      omega

theorem flushLoop_spec (sock : Nat → Option WErr) (force : Bool) :
    ∀ (fuel : Nat) (st : blockWriteStream), st.buf.length ≤ fuel →
    ∃ new, FlushSpec force st (flushLoop sock force fuel st).1
      (flushLoop sock force fuel st).2 new := by
  intro fuel
  induction fuel with
  | zero =>
    intro st hfuel
    refine ⟨[], ?_⟩
    have hb : st.buf = [] := List.eq_nil_of_length_eq_zero (by omega)
    show FlushSpec force st (st, (none : Option WErr)).1 (st, (none : Option WErr)).2 []
    exact flushSpec_nil _ _ _ (fun _ => Or.inl hb)
  | succ fuel ih =>
    intro st hfuel
    by_cases hg : 0 < st.buf.length ∧ (force ∨ outboundPacketSize ≤ st.buf.length)
    · cases hw : sock st.nwrites with
      | some e =>
        have hunf : flushLoop sock force (fuel + 1) st = (flushStep st, some e) := by
          rw [flushLoop, if_pos hg, hw]
        rw [hunf]
        exact ⟨[(makePacket st).1],
          FlushSpec.cons hg (flushSpec_nil _ _ _ (fun hc => absurd hc (by simp)))⟩
      | none =>
        have hstep : (flushStep st).buf.length ≤ fuel := by
          have h1 := flushStep_buf_length st
          have h2 := makePacketLength_pos st.offset hg.1
          omega
        obtain ⟨new, hnew⟩ := ih (flushStep st) hstep
        have hunf : flushLoop sock force (fuel + 1) st
            = flushLoop sock force fuel (flushStep st) := by
          rw [flushLoop, if_pos hg, hw]
        rw [hunf]
        exact ⟨(makePacket st).1 :: new, FlushSpec.cons hg hnew⟩
    · have hunf : flushLoop sock force (fuel + 1) st = (st, none) := by
        rw [flushLoop, if_neg hg]
      rw [hunf]
      refine ⟨[], flushSpec_nil _ _ _ (fun _ => ?_)⟩
      rcases Nat.eq_zero_or_pos st.buf.length with hz | hpos
      · exact Or.inl (List.eq_nil_of_length_eq_zero hz)
      · cases force with
        | true => exact absurd ⟨hpos, Or.inl rfl⟩ hg
        | false =>
          refine Or.inr ⟨rfl, ?_⟩
          by_contra hc
          exact hg ⟨hpos, Or.inr (by omega)⟩

theorem flush_spec (sock : Nat → Option WErr) (force : Bool) (st : blockWriteStream) :
    ∃ new, FlushSpec force st (flush sock force st).1 (flush sock force st).2 new :=
  flushLoop_spec sock force st.buf.length st (Nat.le_refl _)

/-! ## The run invariant -/

lemma getElem?_append_cases {α : Type} (l₁ l₂ : List α) (i : Nat) (p : α)
    (h : (l₁ ++ l₂)[i]? = some p) :
    (i < l₁.length ∧ l₁[i]? = some p) ∨
    (l₁.length ≤ i ∧ l₂[i - l₁.length]? = some p) := by
  rw [List.getElem?_append] at h
  by_cases hi : i < l₁.length
  · rw [if_pos hi] at h; exact Or.inl ⟨hi, h⟩
  · rw [if_neg hi] at h; exact Or.inr ⟨by omega, h⟩

lemma runInv_start (off0 : Int) : RunInv off0 [] (newBlockWriteStream off0) := by
  refine ⟨⟨rfl, by simp [newBlockWriteStream], by simp [newBlockWriteStream],
    ?_, ?_, ?_, ?_⟩, rfl, rfl, ?_⟩
  · intro i p hp; exact absurd hp (by simp [newBlockWriteStream])
  · intro i p hp; exact absurd hp (by simp [newBlockWriteStream])
  · intro p hp; exact absurd hp (by simp [newBlockWriteStream])
  · intro i p hp; exact absurd hp (by simp [newBlockWriteStream])
  · intro _ hne; exact absurd rfl hne

lemma RunInv.buffered {off0 : Int} {w : List Nat} {st : blockWriteStream}
    (h : RunInv off0 w st) (b : List Nat) :
    RunInv off0 (w ++ b) { st with buf := st.buf ++ b } := by
  refine ⟨⟨?_, h.offset_eq, h.seqno_eq, h.seqnos, h.offsets, h.lasts, h.tail_aligned⟩,
    h.closed_eq, h.ackError_eq, h.head_aligned⟩
  show (st.sent.map outboundPacket.data).flatten ++ (st.buf ++ b) = w ++ b
  rw [← List.append_assoc, h.bytes]

lemma MidInv.acrossFlush {off0 : Int} {w : List Nat} {st st' : blockWriteStream}
    {force : Bool} {err : Option WErr} {new : List outboundPacket}
    (hinv : MidInv off0 w st)
    (hha : 0 ≤ off0 → st.sent ≠ [] → Int.tmod st.offset 512 = 0)
    (hf : FlushSpec force st st' err new) :
    MidInv off0 w st' := by
  have hoffnn : 0 ≤ off0 → 0 ≤ st.offset := fun h0 => by
    rw [hinv.offset_eq]; positivity
  refine ⟨?_, ?_, ?_, ?_, ?_, ?_, ?_⟩
  · rw [hf.sent_eq, List.map_append, List.flatten_append, List.append_assoc, hf.bytes,
      hinv.bytes]
  · rw [hf.offset_eq, hinv.offset_eq, hf.sent_eq, List.map_append, List.sum_append]
    push_cast; ring
  · rw [hf.seqno_eq, hinv.seqno_eq, hf.sent_eq, List.length_append]
    push_cast; ring
  · intro i p hp
    rw [hf.sent_eq] at hp
    rcases getElem?_append_cases _ _ _ _ hp with ⟨hi, hp⟩ | ⟨hi, hp⟩
    · exact hinv.seqnos i p hp
    · obtain ⟨j, rfl⟩ : ∃ j, i = st.sent.length + j := ⟨i - st.sent.length, by omega⟩
      have hj : st.sent.length + j - st.sent.length = j := by omega
      rw [hj] at hp
      have := hf.seqnos j p hp
      rw [hinv.seqno_eq] at this
      rw [this]; push_cast; ring
  · intro i p hp
    rw [hf.sent_eq] at hp
    rcases getElem?_append_cases _ _ _ _ hp with ⟨hi, hp⟩ | ⟨hi, hp⟩
    · rw [hinv.offsets i p hp, hf.sent_eq,
        List.take_append_of_le_length (Nat.le_of_lt hi)]
    · obtain ⟨j, rfl⟩ : ∃ j, i = st.sent.length + j := ⟨i - st.sent.length, by omega⟩
      have hj : st.sent.length + j - st.sent.length = j := by omega
      rw [hj] at hp
      have := hf.offsets j p hp
      rw [hinv.offset_eq] at this
      rw [this, hf.sent_eq, List.take_append, List.map_append, List.sum_append]
      push_cast; ring
  · intro p hp
    rw [hf.sent_eq] at hp
    rcases List.mem_append.mp hp with h1 | h1
    · exact hinv.lasts p h1
    · exact hf.lasts p h1
  · intro i p hp hipos h0
    rw [hf.sent_eq] at hp
    rcases getElem?_append_cases _ _ _ _ hp with ⟨hi, hp⟩ | ⟨hi, hp⟩
    · exact hinv.tail_aligned i p hp hipos h0
    · obtain ⟨j, rfl⟩ : ∃ j, i = st.sent.length + j := ⟨i - st.sent.length, by omega⟩
      have hj : st.sent.length + j - st.sent.length = j := by omega
      rw [hj] at hp
      rcases Nat.eq_zero_or_pos j with hj0 | hjpos
      · subst hj0
        have hoff0 := hf.offsets 0 p hp
        simp only [List.take_zero, List.map_nil, List.sum_nil, Nat.cast_zero, add_zero]
          at hoff0
        rw [hoff0]
        apply hha h0
        intro hc
        rw [hc] at hipos
        simp at hipos
      · exact hf.aligned_tail j p hp hjpos (hoffnn h0)

lemma RunInv.afterFlush {off0 : Int} {w : List Nat} {st st' : blockWriteStream}
    {err : Option WErr} {new : List outboundPacket}
    (hinv : RunInv off0 w st) (hf : FlushSpec false st st' err new) :
    RunInv off0 w st' := by
  have hoffnn : 0 ≤ off0 → 0 ≤ st.offset := fun h0 => by
    rw [hinv.offset_eq]; positivity
  refine ⟨hinv.toMidInv.acrossFlush hinv.head_aligned hf, ?_, ?_, ?_⟩
  · rw [hf.closed_eq, hinv.closed_eq]
  · rw [hf.ackError_eq, hinv.ackError_eq]
  · intro h0 hne
    cases hnewnil : new with
    | nil =>
      have hsame : st'.offset = st.offset := by
        rw [hf.offset_eq, hnewnil]; simp
      rw [hsame]
      refine hinv.head_aligned h0 (fun hc => hne ?_)
      rw [hf.sent_eq, hc, hnewnil]
      rfl
    | cons q rest =>
      exact hf.aligned_end rfl (hoffnn h0) (by rw [hnewnil]; simp)

lemma RunInv.writeStep {off0 : Int} {w : List Nat} {st : blockWriteStream}
    (hinv : RunInv off0 w st) (sock : Nat → Option WErr) (b : List Nat) :
    RunInv off0 (w ++ b) (write sock st b).2.2 := by
  obtain ⟨new, hf⟩ := flush_spec sock false { st with buf := st.buf ++ b }
  have hw : (write sock st b).2.2 = (flush sock false { st with buf := st.buf ++ b }).1 := by
    simp [write, hinv.closed_eq, hinv.ackError_eq]
  rw [hw]
  exact (hinv.buffered b).afterFlush hf

lemma runWrites_inv_aux (sock : Nat → Option WErr) (off0 : Int) :
    ∀ (ws : List (List Nat)) (w : List Nat) (st : blockWriteStream),
      RunInv off0 w st → RunInv off0 (w ++ ws.flatten) (runWrites sock ws st)
  | [], w, st, h => by simpa [runWrites] using h
  | b :: ws, w, st, h => by
    have h2 := runWrites_inv_aux sock off0 ws (w ++ b) _ (h.writeStep sock b)
    simpa [runWrites, List.flatten_cons, List.append_assoc] using h2

lemma runWrites_inv (sock : Nat → Option WErr) (off0 : Int) (ws : List (List Nat)) :
    RunInv off0 ws.flatten (runWrites sock ws (newBlockWriteStream off0)) := by
  have := runWrites_inv_aux sock off0 ws [] _ (runInv_start off0)
  simpa using this

/-! ## The finish path -/

lemma finish_closed {sock : Nat → Option WErr} {st : blockWriteStream}
    (hc : st.closed = true) : finish sock st = (st, none) := by
  rw [finish, if_pos hc]

lemma finish_open_err {sock : Nat → Option WErr} {st : blockWriteStream} {e : WErr}
    (hc : st.closed = false) (ha : st.ackError = none)
    (hw : (flush sock true { st with closed := true }).2 = some e) :
    finish sock st = ((flush sock true { st with closed := true }).1,
      finishDefer (flush sock true { st with closed := true }).1 (some e)) := by
  rw [finish, if_neg (by simp [hc])]
  simp only [ha] at hw ⊢
  rw [hw]

lemma finish_open_ok {sock : Nat → Option WErr} {st : blockWriteStream}
    (hc : st.closed = false) (ha : st.ackError = none)
    (hw : (flush sock true { st with closed := true }).2 = none) :
    finish sock st =
      ({ (flush sock true { st with closed := true }).1 with
          sent := (flush sock true { st with closed := true }).1.sent ++
            [{ seqno := (flush sock true { st with closed := true }).1.seqno
             , offset := (flush sock true { st with closed := true }).1.offset
             , last := true, checksums := [], data := [] }]
          nwrites := (flush sock true { st with closed := true }).1.nwrites + 1 },
       finishDefer { (flush sock true { st with closed := true }).1 with
          sent := (flush sock true { st with closed := true }).1.sent ++
            [{ seqno := (flush sock true { st with closed := true }).1.seqno
             , offset := (flush sock true { st with closed := true }).1.offset
             , last := true, checksums := [], data := [] }]
          nwrites := (flush sock true { st with closed := true }).1.nwrites + 1 }
         (sock (flush sock true { st with closed := true }).1.nwrites)) := by
  rw [finish, if_neg (by simp [hc])]
  simp only [ha] at hw ⊢
  rw [hw]

lemma getElem?_singleton {α : Type} {x p : α} {j : Nat} (h : ([x] : List α)[j]? = some p) :
    j = 0 ∧ p = x := by
  cases j with
  | zero =>
    rw [List.getElem?_cons_zero] at h
    exact ⟨rfl, (Option.some.inj h).symm⟩
  | succ n => simp at h

theorem run_spec (sock : Nat → Option WErr) (off0 : Int) (ws : List (List Nat)) :
    ∃ dps, RunSpec off0 ws (run sock off0 ws) dps := by
  have hinv := runWrites_inv sock off0 ws
  set st := runWrites sock ws (newBlockWriteStream off0) with hst
  obtain ⟨new, hf⟩ := flush_spec sock true { st with closed := true }
  have hmid0 : MidInv off0 ws.flatten { st with closed := true } :=
    ⟨hinv.bytes, hinv.offset_eq, hinv.seqno_eq, hinv.seqnos, hinv.offsets, hinv.lasts,
      hinv.tail_aligned⟩
  have hmid1 := hmid0.acrossFlush hinv.head_aligned hf
  set st1 := (flush sock true { st with closed := true }).1 with hst1
  have hack1 : st1.ackError = none := by
    rw [hst1, hf.ackError_eq]; exact hinv.ackError_eq
  refine ⟨st1.sent, ?_⟩
  cases hw2 : (flush sock true { st with closed := true }).2 with
  | some e =>
    have hrun : run sock off0 ws = (st1, some e) := by
      rw [run, ← hst, finish_open_err hinv.closed_eq hinv.ackError_eq hw2, ← hst1]
      simp [finishDefer, hack1]
    rw [hrun]
    refine ⟨Or.inl rfl, hmid1.bytes, hmid1.seqnos, hmid1.offsets, hmid1.lasts, ?_, ?_⟩
    · intro i p hp _ hipos h0
      exact hmid1.tail_aligned i p hp hipos h0
    · intro hcon; exact absurd hcon (by simp)
  | none =>
    have hbuf1 : st1.buf = [] := by
      rcases hf.loop_exit hw2 with h | h
      · exact h
      · exact absurd h.1 (by simp)
    have hterm : ({ seqno := st1.seqno, offset := st1.offset, last := true,
                    checksums := [], data := [] } : outboundPacket)
        = terminalPacket off0 st1.sent.length ((st1.sent.map fun p => p.data.length).sum) := by
      have h1 : st1.seqno = 1 + (st1.sent.length : Int) := hmid1.seqno_eq
      simp [terminalPacket, outboundPacket.mk.injEq, h1, hmid1.offset_eq]
    have hrun : run sock off0 ws =
        ({ st1 with
            sent := st1.sent ++ [terminalPacket off0 st1.sent.length
              ((st1.sent.map fun p => p.data.length).sum)]
            nwrites := st1.nwrites + 1 },
          sock st1.nwrites) := by
      rw [run, ← hst, finish_open_ok hinv.closed_eq hinv.ackError_eq hw2, ← hst1, hterm]
      have hd : finishDefer { st1 with
          sent := st1.sent ++ [terminalPacket off0 st1.sent.length
            ((st1.sent.map fun p => p.data.length).sum)]
          nwrites := st1.nwrites + 1 } (sock st1.nwrites) = sock st1.nwrites := by
        simp [finishDefer, hack1]
      rw [hd]
    rw [hrun]
    refine ⟨Or.inr rfl, hmid1.bytes, ?_, ?_, hmid1.lasts, ?_, fun _ => ⟨rfl, hbuf1⟩⟩
    · intro i p hp
      rcases getElem?_append_cases _ _ _ _ hp with ⟨hi, hp⟩ | ⟨hi, hp⟩
      · exact hmid1.seqnos i p hp
      · obtain ⟨hj0, rfl⟩ := getElem?_singleton hp
        have hilen : i = st1.sent.length := by omega
        subst hilen
        simp only [terminalPacket]
    · intro i p hp
      rcases getElem?_append_cases _ _ _ _ hp with ⟨hi, hp⟩ | ⟨hi, hp⟩
      · rw [hmid1.offsets i p hp, List.take_append_of_le_length (Nat.le_of_lt hi)]
      · obtain ⟨hj0, rfl⟩ := getElem?_singleton hp
        have hilen : i = st1.sent.length := by omega
        subst hilen
        rw [List.take_left]
        simp only [terminalPacket]
    · intro i p hp hplast hipos h0
      rcases getElem?_append_cases _ _ _ _ hp with ⟨hi, hp⟩ | ⟨hi, hp⟩
      · exact hmid1.tail_aligned i p hp hipos h0
      · obtain ⟨hj0, rfl⟩ := getElem?_singleton hp
        exact absurd hplast (by simp [terminalPacket])

/-! ## The drain loop refines the spec-side packet length recurrence -/

lemma flushLoop_sent_mono (sock : Nat → Option WErr) (force : Bool) :
    ∀ (fuel : Nat) (st : blockWriteStream),
      ∃ new, (flushLoop sock force fuel st).1.sent = st.sent ++ new
  | 0, st => ⟨[], by simp [flushLoop]⟩
  | fuel + 1, st => by
    by_cases hg : 0 < st.buf.length ∧ (force ∨ outboundPacketSize ≤ st.buf.length)
    · cases hw : sock st.nwrites with
      | some e =>
        refine ⟨[(makePacket st).1], ?_⟩
        rw [flushLoop, if_pos hg, hw]
        exact flushStep_sent st
      | none =>
        obtain ⟨new, hn⟩ := flushLoop_sent_mono sock force fuel (flushStep st)
        refine ⟨(makePacket st).1 :: new, ?_⟩
        rw [flushLoop, if_pos hg, hw, hn, flushStep_sent, List.append_assoc,
          List.singleton_append]
    · exact ⟨[], by rw [flushLoop, if_neg hg]; simp⟩

lemma flushLoop_lengths (sock : Nat → Option WErr) (force : Bool) :
    ∀ (fuel : Nat) (st : blockWriteStream), (flushLoop sock force fuel st).2 = none →
      ((flushLoop sock force fuel st).1.sent.drop st.sent.length).map
          (fun p => p.data.length)
        = drainLens force fuel st.buf.length st.offset
  | 0, st, _ => by simp [flushLoop, drainLens]
  | fuel + 1, st, h => by
    by_cases hg : 0 < st.buf.length ∧ (force ∨ outboundPacketSize ≤ st.buf.length)
    · cases hw : sock st.nwrites with
      | some e =>
        rw [flushLoop, if_pos hg, hw] at h
        exact absurd h (by simp)
      | none =>
        have hunf : flushLoop sock force (fuel + 1) st
            = flushLoop sock force fuel (flushStep st) := by
          rw [flushLoop, if_pos hg, hw]
        rw [hunf] at h ⊢
        have ih := flushLoop_lengths sock force fuel (flushStep st) h
        obtain ⟨new, hn⟩ := flushLoop_sent_mono sock force fuel (flushStep st)
        have hpl := makePacket_data_length st
        have hdl : drainLens force (fuel + 1) st.buf.length st.offset
            = makePacketLength st.buf.length st.offset ::
              drainLens force fuel
                (st.buf.length - makePacketLength st.buf.length st.offset)
                (st.offset + (makePacketLength st.buf.length st.offset : Int)) := by
          rw [makePacketLength_eq_packetLenSpec, drainLens,
            if_pos (show 0 < st.buf.length ∧ (force = true ∨ 65536 ≤ st.buf.length)
              from hg)]
        rw [hdl]
        rw [hn, flushStep_sent, List.append_assoc, List.singleton_append,
          List.drop_left, List.map_cons, hpl]
        rw [hn, flushStep_sent] at ih
        rw [List.append_assoc, List.singleton_append] at ih
        have hdrop : ((st.sent ++ ((makePacket st).1 :: new)).drop
            (st.sent ++ [(makePacket st).1]).length) = new := by
          have : st.sent ++ ((makePacket st).1 :: new)
              = (st.sent ++ [(makePacket st).1]) ++ new := by
            rw [List.append_assoc, List.singleton_append]
          rw [this, List.drop_left]
        rw [hdrop] at ih
        rw [ih, flushStep_buf_length]
        congr 1
        rw [flushStep_offset, hpl]
    · have hunf : flushLoop sock force (fuel + 1) st = (st, none) := by
        rw [flushLoop, if_neg hg]
      rw [hunf, drainLens,
        if_neg (show ¬ (0 < st.buf.length ∧ (force = true ∨ 65536 ≤ st.buf.length))
          from hg)]
      simp

/-! ## Claim theorems -/

/-- C10: once finish has been called (closed is true), a second finish call
returns nil immediately and has no effect on the stream state: it emits no
packets and performs nothing further — even when an ack error is latched or
the first finish call returned an error. -/
theorem finish_idempotent (sock : Nat → Option WErr) (st : blockWriteStream)
    (h : st.closed = true) : finish sock st = (st, none) :=
  finish_closed h

/-- Witness for finish_idempotent: a closed stream with a latched ack error
and pending buffered bytes is returned unchanged with a nil error. -/
theorem finish_idempotent_witness :
    ({ buf := [7], offset := 3, closed := true, seqno := 4, ackError := some WErr.eof
     , sent := [], nwrites := 2 } : blockWriteStream).closed = true ∧
    finish (fun _ => none)
      { buf := [7], offset := 3, closed := true, seqno := 4, ackError := some WErr.eof
      , sent := [], nwrites := 2 } =
      ({ buf := [7], offset := 3, closed := true, seqno := 4, ackError := some WErr.eof
       , sent := [], nwrites := 2 }, none) :=
  ⟨rfl, finish_idempotent (fun _ => none) _ rfl⟩

/-- C9: Write returns (0, closed-pipe) when the stream is closed, otherwise
returns (0, the latched ack error) when one is latched — in both cases
leaving the stream (and so its buffer) unchanged; in all other cases it
returns an accepted count equal to the input length, and the input is
appended in full: the data of the newly emitted packets followed by the
remaining buffer equals the old buffer followed by the input, for every
socket oracle, in particular when the drain returns a write error (the
undrained bytes remain buffered). -/
theorem write_error_cases (sock : Nat → Option WErr) (st : blockWriteStream)
    (b : List Nat) :
    (st.closed = true → write sock st b = (0, some WErr.closedPipe, st)) ∧
    (∀ e, st.closed = false → st.ackError = some e → write sock st b = (0, some e, st)) ∧
    (st.closed = false → st.ackError = none →
      (write sock st b).1 = b.length ∧
      ((((write sock st b).2.2.sent.drop st.sent.length).map outboundPacket.data).flatten
        ++ (write sock st b).2.2.buf = st.buf ++ b)) := by
  refine ⟨?_, ?_, ?_⟩
  · intro h; simp [write, h]
  · intro e hc ha; simp [write, hc, ha]
  · intro hc ha
    obtain ⟨new, hf⟩ := flush_spec sock false { st with buf := st.buf ++ b }
    have hw : write sock st b = (b.length,
        (flush sock false { st with buf := st.buf ++ b }).2,
        (flush sock false { st with buf := st.buf ++ b }).1) := by
      simp [write, hc, ha]
    rw [hw]
    refine ⟨rfl, ?_⟩
    have hdrop : (flush sock false { st with buf := st.buf ++ b }).1.sent.drop
        st.sent.length = new := by
      rw [hf.sent_eq]
      exact List.drop_left st.sent new
    rw [hdrop, hf.bytes]

/-- Witness for write_error_cases: a closed stream rejects, a latched error
is surfaced, and an open stream accepts the whole input. -/
theorem write_error_cases_witness :
    write (fun _ => none)
      { buf := [], offset := 0, closed := true, seqno := 1, ackError := none
      , sent := [], nwrites := 0 } [7] =
      (0, some WErr.closedPipe,
        { buf := [], offset := 0, closed := true, seqno := 1, ackError := none
        , sent := [], nwrites := 0 }) ∧
    write (fun _ => none)
      { buf := [], offset := 0, closed := false, seqno := 1, ackError := some WErr.eof
      , sent := [], nwrites := 0 } [7] =
      (0, some WErr.eof,
        { buf := [], offset := 0, closed := false, seqno := 1, ackError := some WErr.eof
        , sent := [], nwrites := 0 }) ∧
    (write (fun _ => none) (newBlockWriteStream 0) [7]).1 = 1 :=
  ⟨(write_error_cases (fun _ => none) _ [7]).1 rfl,
   (write_error_cases (fun _ => none) _ [7]).2.1 WErr.eof rfl rfl,
   ((write_error_cases (fun _ => none) (newBlockWriteStream 0) [7]).2.2 rfl rfl).1⟩

/-- C6: in every frame written by writePacket the leading big-endian u32
is data length + checksums length + 4 (excluding the header proto bytes);
a heartbeat frame carries the payload length 4, its header has seqno -1,
offset 0, last false and dataLen 0, and the frame holds nothing beyond the
6 length bytes and the header proto (no checksum or data bytes). -/
theorem frame_payload_length (enc : PacketHeaderProto → List Nat) (p : outboundPacket) :
    (writePacketBytes enc p).take 4 = u32be (p.data.length + p.checksums.length + 4) ∧
    (writeHeartBeatPacketBytes enc).take 4 = u32be 4 ∧
    (writeHeartBeatPacketBytes enc).length = 6 + (enc heartBeatHeader).length ∧
    heartBeatHeader.seqno = -1 ∧ heartBeatHeader.offsetInBlock = 0 ∧
    heartBeatHeader.lastPacketInBlock = false ∧ heartBeatHeader.dataLen = 0 := by
  refine ⟨?_, ?_, ?_, rfl, rfl, rfl, rfl⟩
  · simp [writePacketBytes, u32be, u16be]
  · simp [writeHeartBeatPacketBytes, u32be]
  · simp [writeHeartBeatPacketBytes, u32be, u16be]
    omega

/-- C2: the packets formed by a drain that reports no error are exactly
described by the spec-side recurrence: while the buffer is non-empty and
(the flush is forced or a full 65536-byte packet can be formed), emit a
packet of length min(buffered, 65536), capped to 512 - offset mod 512 when
that is positive and smaller. -/
theorem flush_packet_lengths (sock : Nat → Option WErr) (force : Bool)
    (st : blockWriteStream) (h : (flush sock force st).2 = none) :
    ((flush sock force st).1.sent.drop st.sent.length).map (fun p => p.data.length)
      = drainLens force st.buf.length st.buf.length st.offset :=
  flushLoop_lengths sock force st.buf.length st h

/-- Witness for flush_packet_lengths: a forced drain of a two-byte buffer
emits one two-byte packet. -/
theorem flush_packet_lengths_witness :
    (flush (fun _ => none) true (newBlockWriteStream 0) ).2 = none ∧
    ((flush (fun _ => none) true
        { buf := [5, 6], offset := 0, closed := false, seqno := 1, ackError := none
        , sent := [], nwrites := 0 }).2 = none) ∧
    ((flush (fun _ => none) true
        { buf := [5, 6], offset := 0, closed := false, seqno := 1, ackError := none
        , sent := [], nwrites := 0 }).1.sent.drop 0).map (fun p => p.data.length)
      = drainLens true 2 2 0 :=
  ⟨by decide, by decide,
   flush_packet_lengths (fun _ => none) true
     { buf := [5, 6], offset := 0, closed := false, seqno := 1, ackError := none
     , sent := [], nwrites := 0 } (by decide)⟩

/-! ## Checksum layout helpers -/

lemma u32be_length (n : Nat) : (u32be n).length = 4 := rfl

lemma flatten_fixed_length {α : Type} (g : α → List Nat)
    (hg : ∀ a, (g a).length = 4) :
    ∀ l : List α, ((l.map g).flatten).length = 4 * l.length
  | [] => by simp
  | a :: t => by
    rw [List.map_cons, List.flatten_cons, List.length_append, hg a,
      flatten_fixed_length g hg t]
    simp [Nat.mul_succ]
    omega

lemma flatten_fixed_extract {α : Type} (g : α → List Nat)
    (hg : ∀ a, (g a).length = 4) :
    ∀ (l : List α) (k : Nat) (hk : k < l.length),
      (((l.map g).flatten).drop (4 * k)).take 4 = g (l.get ⟨k, hk⟩)
  | [], k, hk => absurd hk (by simp)
  | a :: t, 0, hk => by
    rw [List.map_cons, List.flatten_cons, Nat.mul_zero, List.drop_zero, ← hg a,
      List.take_left]
    rfl
  | a :: t, k + 1, hk => by
    rw [List.map_cons, List.flatten_cons]
    have h1 : 4 * (k + 1) = (g a).length + 4 * k := by rw [hg a]; omega
    rw [h1, List.drop_append]
    exact flatten_fixed_extract g hg t k (by simpa using hk)

/-- C3: the checksum array of every packet built by makePacket has exactly
4 * ceil(L / 512) bytes for L the data length, and for every chunk index i
the 4 bytes at position 4*i are the big-endian CRC32 (IEEE) of
data[512*i .. min(512*(i+1), L)), the final chunk possibly shorter. -/
theorem makePacket_checksum_spec (st : blockWriteStream) (i : Nat)
    (hi : i < ((makePacket st).1.data.length + 511) / 512) :
    (makePacket st).1.checksums.length
      = 4 * (((makePacket st).1.data.length + 511) / 512) ∧
    ((makePacket st).1.checksums.drop (4 * i)).take 4
      = u32be (crc32 (((makePacket st).1.data.drop (512 * i)).take 512)) := by
  have hchk : (makePacket st).1.checksums
      = ((List.range (numChunks (makePacket st).1.data.length)).map
          fun j => u32be (crc32 (chunkAt (makePacket st).1.data j))).flatten := rfl
  have hnum : numChunks (makePacket st).1.data.length
      = ((makePacket st).1.data.length + 511) / 512 := by
    simp only [numChunks, outboundChunkSize]
    omega
  constructor
  · rw [hchk, flatten_fixed_length
      (fun j => u32be (crc32 (chunkAt (makePacket st).1.data j))) (fun a => rfl),
      List.length_range, hnum]
  · have hk : i < (List.range (numChunks (makePacket st).1.data.length)).length := by
      rw [List.length_range, hnum]; exact hi
    rw [hchk, flatten_fixed_extract
      (fun j => u32be (crc32 (chunkAt (makePacket st).1.data j))) (fun a => rfl)
      _ i hk, List.get_range]
    show u32be (crc32 (((makePacket st).1.data.drop (i * 512)).take 512)) = _
    rw [Nat.mul_comm]

/-- Witness for makePacket_checksum_spec: a packet over a three-byte buffer
has one chunk whose stored checksum is the CRC32 of those three bytes. -/
theorem makePacket_checksum_spec_witness :
    0 < (((makePacket { buf := [1, 2, 3], offset := 0, closed := false, seqno := 1, ackError := none, sent := [], nwrites := 0 }).1.data.length + 511) / 512) ∧
    ((makePacket { buf := [1, 2, 3], offset := 0, closed := false, seqno := 1, ackError := none, sent := [], nwrites := 0 }).1.checksums.length
        = 4 * (((makePacket { buf := [1, 2, 3], offset := 0, closed := false, seqno := 1, ackError := none, sent := [], nwrites := 0 }).1.data.length + 511) / 512) ∧
     ((makePacket { buf := [1, 2, 3], offset := 0, closed := false, seqno := 1, ackError := none, sent := [], nwrites := 0 }).1.checksums.drop (4 * 0)).take 4
       = u32be (crc32 (((makePacket { buf := [1, 2, 3], offset := 0, closed := false, seqno := 1, ackError := none, sent := [], nwrites := 0 }).1.data.drop (512 * 0)).take 512))) :=
  ⟨by decide,
   makePacket_checksum_spec
     { buf := [1, 2, 3], offset := 0, closed := false, seqno := 1, ackError := none, sent := [], nwrites := 0 } 0 (by decide)⟩

/-- C4: for each dequeued in-flight packet the acker latches exactly the
first ack-side error and stops reading: a failed read latches the read
error, an ack with any non-SUCCESS status latches an ackError with the
first failing replica index, the status and the seqno, a heartbeat ack
(seqno -1) is discarded and another ack is read without dequeuing, a
non-heartbeat ack with a mismatched seqno latches ErrInvalidSeqno, a
matching ack acknowledges the packet; after a latch, the remaining packets
are only dequeued and the ack stream is not consumed further, so the
latched error is never overwritten. -/
theorem ackPackets_first_error (p : outboundPacket) (ps : List outboundPacket)
    (acks rest : List (Except WErr PipelineAck)) (e : WErr) (a : PipelineAck) :
    (readOneAck p (Except.error e :: rest) = (some e, rest)) ∧
    (∀ i s, firstFailure a.reply = some (i, s) →
      readOneAck p (Except.ok a :: rest) = (some (WErr.ack i a.seqno s), rest)) ∧
    (firstFailure a.reply = none → a.seqno = -1 →
      readOneAck p (Except.ok a :: rest) = readOneAck p rest) ∧
    (firstFailure a.reply = none → a.seqno ≠ -1 → a.seqno ≠ p.seqno →
      readOneAck p (Except.ok a :: rest) = (some WErr.invalidSeqno, rest)) ∧
    (firstFailure a.reply = none → a.seqno ≠ -1 → a.seqno = p.seqno →
      readOneAck p (Except.ok a :: rest) = (none, rest)) ∧
    (readOneAck p acks = (some e, rest) → ackPackets (p :: ps) acks = (some e, rest)) ∧
    (readOneAck p acks = (none, rest) → ackPackets (p :: ps) acks = ackPackets ps rest) := by
  refine ⟨rfl, ?_, ?_, ?_, ?_, ?_, ?_⟩
  · intro i s hf
    simp [readOneAck, hf]
  · intro hf hs
    simp [readOneAck, hf, hs, heartBeatSeqno]
  · intro hf hs hne
    simp [readOneAck, hf, hs, hne, heartBeatSeqno]
  · intro hf hs he
    simp only [readOneAck, hf]
    rw [if_neg (show ¬ a.seqno = heartBeatSeqno from by rw [heartBeatSeqno]; exact hs),
      if_neg (show ¬ a.seqno ≠ p.seqno from not_not_intro he)]
  · intro hr
    simp [ackPackets, hr]
  · intro hr
    simp [ackPackets, hr]

/-- Witness for ackPackets_first_error: concrete acks exercising the read
failure, the failing status, the heartbeat skip, the seqno mismatch, and
the post-latch drain. -/
theorem ackPackets_first_error_witness :
    (readOneAck { seqno := 2, offset := 0, last := false, checksums := [], data := [] }
      [Except.error WErr.eof] = (some WErr.eof, [])) ∧
    (readOneAck { seqno := 2, offset := 0, last := false, checksums := [], data := [] }
      [Except.ok { seqno := 7, reply := [0, 3] }]
      = (some (WErr.ack 1 7 3), [])) ∧
    (readOneAck { seqno := 2, offset := 0, last := false, checksums := [], data := [] }
      [Except.ok { seqno := -1, reply := [0] },
       Except.ok { seqno := 2, reply := [0] }]
      = readOneAck { seqno := 2, offset := 0, last := false, checksums := [], data := [] }
          [Except.ok { seqno := 2, reply := [0] }]) ∧
    (readOneAck { seqno := 2, offset := 0, last := false, checksums := [], data := [] }
      [Except.ok { seqno := 9, reply := [0] }]
      = (some WErr.invalidSeqno, [])) ∧
    (ackPackets
      [{ seqno := 2, offset := 0, last := false, checksums := [], data := [] },
       { seqno := 3, offset := 0, last := false, checksums := [], data := [] }]
      [Except.error WErr.eof, Except.ok { seqno := 2, reply := [0] }]
      = (some WErr.eof, [Except.ok { seqno := 2, reply := [0] }])) :=
  ⟨(ackPackets_first_error _ [] [] [] WErr.eof { seqno := 7, reply := [0, 3] }).1,
   (ackPackets_first_error _ [] [] [] WErr.eof { seqno := 7, reply := [0, 3] }).2.1
     1 3 (by decide),
   (ackPackets_first_error _ [] []
       [Except.ok { seqno := 2, reply := [0] }] WErr.eof
       { seqno := -1, reply := [0] }).2.2.1 (by decide) (by decide),
   (ackPackets_first_error _ [] [] [] WErr.eof
       { seqno := 9, reply := [0] }).2.2.2.1 (by decide) (by decide) (by decide),
   (ackPackets_first_error
       { seqno := 2, offset := 0, last := false, checksums := [], data := [] }
       [{ seqno := 3, offset := 0, last := false, checksums := [], data := [] }]
       [Except.error WErr.eof, Except.ok { seqno := 2, reply := [0] }]
       [Except.ok { seqno := 2, reply := [0] }] WErr.eof
       { seqno := 7, reply := [0, 3] }).2.2.2.2.2.1 rfl⟩

/-- C1: for every sequence of Write calls followed by a finish that returns
no error, the concatenation of the data of all emitted non-terminal (data)
packets, in emission order, equals the concatenation of all bytes accepted
by Write (in these runs every Write accepts its whole input, so the
accepted bytes are the concatenation of the inputs). -/
theorem run_data_concat (sock : Nat → Option WErr) (off0 : Int) (ws : List (List Nat))
    (h : (run sock off0 ws).2 = none) :
    (((run sock off0 ws).1.sent.filter fun p => !p.last).map
      outboundPacket.data).flatten = ws.flatten := by
  obtain ⟨dps, hs⟩ := run_spec sock off0 ws
  obtain ⟨hshape, hbuf⟩ := hs.success h
  have hfilter : (run sock off0 ws).1.sent.filter (fun p => !p.last) = dps := by
    rw [hshape, List.filter_append]
    have h1 : dps.filter (fun p => !p.last) = dps :=
      List.filter_eq_self.mpr (fun p hp => by rw [hs.dps_lasts p hp]; rfl)
    have h2 : ([terminalPacket off0 dps.length
        ((dps.map fun p => p.data.length).sum)].filter (fun p => !p.last)) = [] := by
      simp [terminalPacket]
    rw [h1, h2, List.append_nil]
  rw [hfilter]
  have hbytes := hs.bytes
  rw [hbuf, List.append_nil] at hbytes
  exact hbytes

/-- Witness for run_data_concat: a run writing [1,2,3] emits data packets
whose data concatenates to [1,2,3]. -/
theorem run_data_concat_witness :
    (run (fun _ => none) 0 [[1, 2, 3]]).2 = none ∧
    ((((run (fun _ => none) 0 [[1, 2, 3]]).1.sent.filter fun p => !p.last).map
      outboundPacket.data).flatten = ([[1, 2, 3]] : List (List Nat)).flatten) :=
  ⟨by decide, run_data_concat (fun _ => none) 0 [[1, 2, 3]] (by decide)⟩

/-- C5: in every run whose finish returns no error the emitted packets
carry the seqnos 1, 2, ..., K, K+1 in order (packet i has seqno 1+i, so
strictly ascending with no gaps or reuse), exactly the final packet has
last = true, and that terminal packet carries no data and no checksums and
has offset equal to the final byte count of the stream. -/
theorem run_seqnos_terminal (sock : Nat → Option WErr) (off0 : Int) (ws : List (List Nat))
    (h : (run sock off0 ws).2 = none) :
    (run sock off0 ws).1.sent ≠ [] ∧
    (∀ (i : Nat) (hi : i < (run sock off0 ws).1.sent.length),
      ((run sock off0 ws).1.sent.get ⟨i, hi⟩).seqno = 1 + (i : Int)) ∧
    (∀ (i : Nat) (hi : i < (run sock off0 ws).1.sent.length),
      (((run sock off0 ws).1.sent.get ⟨i, hi⟩).last = true
        ↔ i + 1 = (run sock off0 ws).1.sent.length)) ∧
    (∃ t, (run sock off0 ws).1.sent.getLast? = some t ∧ t.last = true ∧ t.data = []
      ∧ t.checksums = [] ∧ t.offset = off0 + (ws.flatten.length : Int)) := by
  obtain ⟨dps, hs⟩ := run_spec sock off0 ws
  obtain ⟨hshape, hbuf⟩ := hs.success h
  have hflat : (dps.map outboundPacket.data).flatten = ws.flatten := by
    have hb := hs.bytes; rw [hbuf, List.append_nil] at hb; exact hb
  have hsum : ((dps.map fun p => p.data.length).sum) = ws.flatten.length := by
    rw [← hflat, List.length_flatten, List.map_map]
    rfl
  have hlen : (run sock off0 ws).1.sent.length = dps.length + 1 := by
    rw [hshape]; simp
  refine ⟨?_, ?_, ?_, ?_⟩
  · rw [hshape]; simp
  · intro i hi
    exact hs.seqnos i _ (by rw [List.get_eq_getElem]; exact List.getElem?_eq_getElem hi)
  · intro i hi
    generalize hp0 : (run sock off0 ws).1.sent.get ⟨i, hi⟩ = p
    have hsome : (run sock off0 ws).1.sent[i]? = some p := by
      rw [← hp0, List.get_eq_getElem]; exact List.getElem?_eq_getElem hi
    rw [hshape] at hsome
    rcases getElem?_append_cases _ _ _ _ hsome with ⟨hil, hp⟩ | ⟨hil, hp⟩
    · have hfalse := hs.dps_lasts _ (List.getElem?_mem hp)
      constructor
      · intro hc; rw [hfalse] at hc; exact absurd hc (by simp)
      · intro hc; rw [hlen] at hc; exact absurd hc (by omega)
    · obtain ⟨hj0, hpe⟩ := getElem?_singleton hp
      constructor
      · intro _; rw [hlen]; omega
      · intro _; rw [hpe]; rfl
  · refine ⟨terminalPacket off0 dps.length ((dps.map fun p => p.data.length).sum),
      ?_, rfl, rfl, rfl, ?_⟩
    · rw [hshape, List.getLast?_concat]
    · simp [terminalPacket, hsum]

/-- Witness for run_seqnos_terminal: a run writing [1,2] finishes without
error and has a non-empty packet trace. -/
theorem run_seqnos_terminal_witness :
    (run (fun _ => none) 0 [[1, 2]]).2 = none ∧
    (run (fun _ => none) 0 [[1, 2]]).1.sent ≠ [] :=
  ⟨by decide, (run_seqnos_terminal (fun _ => none) 0 [[1, 2]] (by decide)).1⟩

/-- C7 counterexample: in a run that starts at offset 600 (an append), the
first emitted data packet has offset_in_block 600, not the sum (0) of the
data lengths of the previously emitted packets. -/
theorem packet_offset_sum_prior_cex :
    ¬ (∀ (i : Nat) (p : outboundPacket),
        (run (fun _ => none) 600 [[1, 2, 3]]).1.sent[i]? = some p →
        p.last = false →
        p.offset = ((((((run (fun _ => none) 600 [[1, 2, 3]]).1.sent.take i).map
          fun q => q.data.length).sum : Nat)) : Int)) := by
  intro hall
  have h0 := hall 0
    { seqno := 1, offset := 600, last := false, checksums := [85, 188, 128, 29], data := [1, 2, 3] }
    (by decide) rfl
  exact absurd h0 (by decide)

/-- C7 amended: every emitted packet's offset_in_block equals the stream's
starting offset plus the sum of the data lengths of all previously emitted
packets of the stream (for a fresh block the starting offset is 0 and this
is the claim as stated; for an append it is shifted by the starting
offset). -/
theorem packet_offset_start_plus_prior (sock : Nat → Option WErr) (off0 : Int)
    (ws : List (List Nat)) (i : Nat)
    (hi : i < (run sock off0 ws).1.sent.length) :
    ((run sock off0 ws).1.sent.get ⟨i, hi⟩).offset
      = off0 + ((((((run sock off0 ws).1.sent.take i).map
          fun q => q.data.length).sum : Nat)) : Int) := by
  obtain ⟨dps, hs⟩ := run_spec sock off0 ws
  exact hs.offsets i _ (by rw [List.get_eq_getElem]; exact List.getElem?_eq_getElem hi)

/-- Witness for packet_offset_start_plus_prior: the first packet of an
append starting at 600 sits at offset 600 plus an empty sum. -/
theorem packet_offset_start_plus_prior_witness :
    0 < (run (fun _ => none) 600 [[1, 2, 3]]).1.sent.length ∧
    ((run (fun _ => none) 600 [[1, 2, 3]]).1.sent.get ⟨0, by decide⟩).offset
      = 600 + ((((((run (fun _ => none) 600 [[1, 2, 3]]).1.sent.take 0).map
          fun q => q.data.length).sum : Nat)) : Int) :=
  ⟨by decide,
   packet_offset_start_plus_prior (fun _ => none) 600 [[1, 2, 3]] 0 (by decide)⟩

/-- C8 counterexample: in a run starting at the aligned offset 0 that
writes three bytes, the second emitted packet (the terminal packet) has
offset 3, which is not a multiple of 512 — the claim fails for terminal
packets. -/
theorem packet_alignment_cex :
    ¬ (∀ (i : Nat) (p : outboundPacket),
        (run (fun _ => none) 0 [[1, 2, 3]]).1.sent[i]? = some p →
        (0 < i ∨ Int.tmod (0 : Int) 512 = 0) → Int.tmod p.offset 512 = 0) := by
  intro hall
  have h1 := hall 1
    { seqno := 2, offset := 3, last := true, checksums := [], data := [] }
    (by decide) (Or.inl (by omega))
  exact absurd h1 (by decide)

/-- C8 amended: for every emitted non-terminal (data) packet of a run with
a nonnegative starting offset — except possibly the first emitted packet
when that starting offset is not a multiple of 512 — offset_in_block mod
512 equals 0.  (The claim as stated also covered the terminal packet,
whose offset is the final byte count and need not be aligned.) -/
theorem data_packet_alignment (sock : Nat → Option WErr) (off0 : Int)
    (h0 : 0 ≤ off0) (ws : List (List Nat)) (i : Nat)
    (hi : i < (run sock off0 ws).1.sent.length)
    (hdata : ((run sock off0 ws).1.sent.get ⟨i, hi⟩).last = false)
    (hfirst : 0 < i ∨ Int.tmod off0 512 = 0) :
    Int.tmod (((run sock off0 ws).1.sent.get ⟨i, hi⟩).offset) 512 = 0 := by
  obtain ⟨dps, hs⟩ := run_spec sock off0 ws
  have hsome : (run sock off0 ws).1.sent[i]?
      = some ((run sock off0 ws).1.sent.get ⟨i, hi⟩) := by
    rw [List.get_eq_getElem]; exact List.getElem?_eq_getElem hi
  rcases Nat.eq_zero_or_pos i with rfl | hipos
  · rcases hfirst with hipos | haligned
    · exact absurd hipos (by omega)
    · have hof := hs.offsets 0 _ hsome
      simp only [List.take_zero, List.map_nil, List.sum_nil, Nat.cast_zero, add_zero]
        at hof
      rw [hof]
      exact haligned
  · exact hs.aligned i _ hsome hdata hipos h0

/-- Witness for data_packet_alignment: the first data packet of a run
starting at the aligned offset 0 sits at an aligned offset. -/
theorem data_packet_alignment_witness :
    (0 : Int) ≤ 0 ∧
    0 < (run (fun _ => none) 0 [[1, 2, 3]]).1.sent.length ∧
    ((run (fun _ => none) 0 [[1, 2, 3]]).1.sent.get ⟨0, by decide⟩).last = false ∧
    Int.tmod (((run (fun _ => none) 0 [[1, 2, 3]]).1.sent.get ⟨0, by decide⟩).offset)
      512 = 0 :=
  ⟨le_refl 0, by decide, by decide,
   data_packet_alignment (fun _ => none) 0 (le_refl 0) [[1, 2, 3]] 0 (by decide)
     (by decide) (Or.inr (by decide))⟩

end BlockWrite
